import Mathlib

/-!
Shallow embedding of the Base64 string-tensor codec of tfjs-core
(`src/ops/string_ops.ts`: `encodeBase64_`, `decodeBase64_` and their
helpers).  JS strings are modelled as lists of Unicode code points
(`List Nat`); binary strings / byte buffers as lists of byte values.
JS bit operations on the nonnegative integers appearing here are
translated arithmetically: `x >>> k` is `x / 2^k`, `x & (2^k - 1)` is
`x % 2^k`, and `a | b` on disjoint bit ranges is `a + b`.
-/

namespace StringOps

/-- A string tensor: the shape metadata plus the flat list of string
    values, as produced by `Tensor.make($str.shape, {values}, dtype)`. -/
structure StringTensor where
  shape : List Nat
  values : List (List Nat)
  deriving DecidableEq, Repr

/-- `toUrlSafe`: replace every `+` with `-`, then every slash with `_`
    (two sequential global character replacements). -/
def toUrlSafe (s : List Nat) : List Nat :=
  (s.map fun c => if c = 43 then 45 else c).map fun c => if c = 47 then 95 else c

/-- `fromUrlSafe`: replace every `-` with `+`, then every `_` with a
    slash (two sequential global character replacements). -/
def fromUrlSafe (s : List Nat) : List Nat :=
  (s.map fun c => if c = 45 then 43 else c).map fun c => if c = 95 then 47 else c

/-- The effect of `toUrlSafe` on a single character. -/
def toUrlSafeChar (c : Nat) : Nat :=
  if c = 43 then 45 else if c = 47 then 95 else c

/-- The effect of `fromUrlSafe` on a single character. -/
def fromUrlSafeChar (c : Nat) : Nat :=
  if c = 45 then 43 else if c = 95 then 47 else c

/-- `utf16ToUtf8Multibyte`: UTF-8 byte sequence of one code point,
    with exactly the source's branch structure and bit formulas. -/
def utf16ToUtf8Multibyte (cp : Nat) : List Nat :=
  if cp < 0x80 then
    [cp]
  else if cp < 0x800 then
    [0xc0 + cp / 64, 0x80 + cp % 64]
  else if cp < 0x10000 then
    [0xe0 + cp / 4096 % 16, 0x80 + cp / 64 % 64, 0x80 + cp % 64]
  else
    [0xf0 + cp / 262144 % 8, 0x80 + cp / 4096 % 64, 0x80 + cp / 64 % 64, 0x80 + cp % 64]

/-- `utf8MultibyteToUtf16`: combine a matched multibyte sequence back
    into one code point; the `switch (seq.length)` default returns the
    sequence unchanged. -/
def utf8MultibyteToUtf16 (seq : List Nat) : List Nat :=
  match seq with
  | [b1, b2] => [b1 % 32 * 64 + b2 % 64]
  | [b1, b2, b3] => [b1 % 16 * 4096 + b2 % 64 * 64 + b3 % 64]
  | [b1, b2, b3, b4] => [b1 % 8 * 262144 + b2 % 64 * 4096 + b3 % 64 * 64 + b4 % 64]
  | s => s

/-- ASCII code of the RFC 4648 standard-alphabet character for a sextet. -/
def b64Char (n : Nat) : Nat :=
  if n < 26 then 65 + n
  else if n < 52 then 97 + (n - 26)
  else if n < 62 then 48 + (n - 52)
  else if n = 62 then 43
  else 47

/-- Sextet value of a standard-alphabet character, `none` outside it. -/
def b64CharIndex (c : Nat) : Option Nat :=
  if 65 ≤ c ∧ c ≤ 90 then some (c - 65)
  else if 97 ≤ c ∧ c ≤ 122 then some (26 + (c - 97))
  else if 48 ≤ c ∧ c ≤ 57 then some (52 + (c - 48))
  else if c = 43 then some 62
  else if c = 47 then some 63
  else none

/-- Padded standard Base64 of a byte list: the output of both
    `Buffer.from(bytes).toString('base64')` and `btoa` on a binary
    string (3 bytes to 4 characters; a 1-byte remainder yields 2
    characters and `==`, a 2-byte remainder 3 characters and `=`). -/
def b64EncodeBytes : List Nat → List Nat
  | [] => []
  | [a] => [b64Char (a / 4), b64Char (a % 4 * 16), 61, 61]
  | [a, b] => [b64Char (a / 4), b64Char (a % 4 * 16 + b / 16), b64Char (b % 16 * 4), 61]
  | a :: b :: c :: rest =>
      b64Char (a / 4) :: b64Char (a % 4 * 16 + b / 16) ::
        b64Char (b % 16 * 4 + c / 64) :: b64Char (c % 64) :: b64EncodeBytes rest

/-- `btoa`: Base64 of a binary string; throws `InvalidCharacterError`
    (here `none`) when some code unit exceeds 0xFF. -/
def btoa (s : List Nat) : Option (List Nat) :=
  if s.all (fun c => c < 256) then some (b64EncodeBytes s) else none

/-- Byte list of a sextet list (forgiving-base64: a 2-sextet remainder
    yields 1 byte, a 3-sextet remainder 2 bytes, discarding spare bits). -/
def b64DecodeSextets : List Nat → List Nat
  | a :: b :: c :: d :: rest =>
      (a * 4 + b / 16) :: (b % 16 * 16 + c / 4) :: (c % 4 * 64 + d) :: b64DecodeSextets rest
  | [a, b] => [a * 4 + b / 16]
  | [a, b, c] => [a * 4 + b / 16, b % 16 * 16 + c / 4]
  | _ => []

/-- ASCII whitespace removed by forgiving-base64. -/
def isB64Whitespace (c : Nat) : Bool :=
  c = 9 || c = 10 || c = 12 || c = 13 || c = 32

/-- Remove one trailing `=` if present. -/
def dropEq1 (l : List Nat) : List Nat :=
  if l.getLast? = some 61 then l.dropLast else l

/-- Forgiving-base64 padding removal: when the length is a multiple of
    4, remove up to two trailing `=`. -/
def stripPad (l : List Nat) : List Nat :=
  if l.length % 4 = 0 then dropEq1 (dropEq1 l) else l

/-- `atob`: WHATWG forgiving-base64 decode.  Strips ASCII whitespace;
    when the length is a multiple of 4, removes up to two trailing `=`;
    fails when the remaining length is 1 mod 4 or some character is
    outside the standard alphabet. -/
def atob (s : List Nat) : Option (List Nat) :=
  if (stripPad (s.filter (fun c => !isB64Whitespace c))).length % 4 = 1 then none
  else
    match (stripPad (s.filter (fun c => !isB64Whitespace c))).mapM b64CharIndex with
    | none => none
    | some sextets => some (b64DecodeSextets sextets)

/-- Continuation byte `[\x80-\xBF]` of the `multibyteSeq` regex. -/
def isCont (b : Nat) : Bool := 128 ≤ b && b ≤ 191

/-- Whether the next `n` characters exist and are continuation bytes
    (the `[\x80-\xBF]{n}` part of an alternative of `multibyteSeq`). -/
def contRun (l : List Nat) (n : Nat) : Bool :=
  n ≤ l.length && (l.take n).all isCont

/-- One global pass of `.replace(multibyteSeq, utf8MultibyteToUtf16)`:
    at each position try the two-byte alternative `[\xC0-\xDF][\x80-\xBF]`,
    then `[\xE0-\xEF][\x80-\xBF]{2}`, then `[\xF0-\xF7][\x80-\xBF]{3}`;
    on a match, substitute and continue after it, otherwise copy the
    character and move one position. -/
def multibyteReplace : List Nat → List Nat
  | [] => []
  | b1 :: rest =>
    if 192 ≤ b1 && b1 ≤ 223 && contRun rest 1 then
      utf8MultibyteToUtf16 (b1 :: rest.take 1) ++ multibyteReplace (rest.drop 1)
    else if 224 ≤ b1 && b1 ≤ 239 && contRun rest 2 then
      utf8MultibyteToUtf16 (b1 :: rest.take 2) ++ multibyteReplace (rest.drop 2)
    else if 240 ≤ b1 && b1 ≤ 247 && contRun rest 3 then
      utf8MultibyteToUtf16 (b1 :: rest.take 3) ++ multibyteReplace (rest.drop 3)
    else b1 :: multibyteReplace rest
  termination_by l => l.length
  decreasing_by
    · simp [List.length_drop]
      omega
    · simp [List.length_drop]
      omega
    · simp [List.length_drop]
      omega
    · simp

/-- The per-element body of the `encodeBase64_` loop.  Both environment
    branches produce the padded standard Base64 of the UTF-8 bytes of
    the element (Node: `Buffer.from(bVal).toString('base64')`; browser:
    `btoa` after `Array.from(bVal).map(utf16ToUtf8Multibyte).join('')`);
    then `toUrlSafe`, and removal of every `=` when `pad` is false. -/
def encodeBase64One (s : List Nat) (pad : Bool) : List Nat :=
  let b := b64EncodeBytes ((s.map utf16ToUtf8Multibyte).flatten)
  let b2 := toUrlSafe b
  if pad then b2 else b2.filter (fun c => c != 61)

/-- The per-element body of the `decodeBase64_` loop in the browser
    branch (`runningInNode` false):
    `atob(fromUrlSafe(v)).replace(multibyteSeq, utf8MultibyteToUtf16)`;
    `none` models the `atob` exception.  The Node branch is
    `decodeBase64OneNode` below. -/
def decodeBase64One (s : List Nat) : Option (List Nat) :=
  (atob (fromUrlSafe s)).map multibyteReplace

/-- `Buffer.from(s, 'base64')`: Node's lenient Base64 decoder.  It
    never throws; characters outside the standard alphabet (whitespace,
    `=`, anything invalid) are skipped, and the remaining sextets are
    packed three bytes per four sextets, a trailing partial group
    contributing its complete bytes. -/
def nodeBase64Decode (s : List Nat) : List Nat :=
  b64DecodeSextets (s.filterMap b64CharIndex)

/-- `buf.toString()`: UTF-8 decode of a byte buffer with the WHATWG
    maximal-subpart replacement policy — every maximal byte sequence
    that is not a valid UTF-8 encoding of a scalar value becomes one
    U+FFFD (65533); overlong forms, surrogate encodings and code points
    above U+10FFFF are invalid; the decoder never throws. -/
def utf8DecodeReplace : List Nat → List Nat
  | [] => []
  | b :: rest =>
    if b < 128 then b :: utf8DecodeReplace rest
    else if 194 ≤ b && b ≤ 223 then
      match rest with
      | [] => [65533]
      | b2 :: r2 =>
          if isCont b2 then (b % 32 * 64 + b2 % 64) :: utf8DecodeReplace r2
          else 65533 :: utf8DecodeReplace (b2 :: r2)
    else if 224 ≤ b && b ≤ 239 then
      match rest with
      | [] => [65533]
      | b2 :: r2 =>
          if (if b = 224 then 160 ≤ b2 && b2 ≤ 191
              else if b = 237 then 128 ≤ b2 && b2 ≤ 159
              else isCont b2) then
            match r2 with
            | [] => [65533]
            | b3 :: r3 =>
                if isCont b3 then
                  (b % 16 * 4096 + b2 % 64 * 64 + b3 % 64) :: utf8DecodeReplace r3
                else 65533 :: utf8DecodeReplace (b3 :: r3)
          else 65533 :: utf8DecodeReplace (b2 :: r2)
    else if 240 ≤ b && b ≤ 244 then
      match rest with
      | [] => [65533]
      | b2 :: r2 =>
          if (if b = 240 then 144 ≤ b2 && b2 ≤ 191
              else if b = 244 then 128 ≤ b2 && b2 ≤ 143
              else isCont b2) then
            match r2 with
            | [] => [65533]
            | b3 :: r3 =>
                if isCont b3 then
                  match r3 with
                  | [] => [65533]
                  | b4 :: r4 =>
                      if isCont b4 then
                        (b % 8 * 262144 + b2 % 64 * 4096 + b3 % 64 * 64 + b4 % 64) ::
                          utf8DecodeReplace r4
                      else 65533 :: utf8DecodeReplace (b4 :: r4)
                else 65533 :: utf8DecodeReplace (b3 :: r3)
          else 65533 :: utf8DecodeReplace (b2 :: r2)
    else 65533 :: utf8DecodeReplace rest

/-- The per-element body of the `decodeBase64_` loop in the Node branch
    (`runningInNode` true): `Buffer.from(fromUrlSafe(v), 'base64').toString()`.
    Total — this branch can never raise an error. -/
def decodeBase64OneNode (s : List Nat) : List Nat :=
  utf8DecodeReplace (nodeBase64Decode (fromUrlSafe s))

/-- `decodeBase64_` in the Node branch: element-wise, never fails. -/
def decodeBase64Node (t : StringTensor) : StringTensor :=
  ⟨t.shape, t.values.map decodeBase64OneNode⟩

/-- `encodeBase64_`: element-wise encode, result rebuilt with
    `Tensor.make($str.shape, {values: resultValues}, $str.dtype)`. -/
def encodeBase64 (t : StringTensor) (pad : Bool) : StringTensor :=
  ⟨t.shape, t.values.map (fun v => encodeBase64One v pad)⟩

/-- `decodeBase64_`: element-wise decode; an exception raised at any
    element aborts the whole operation (`none`). -/
def decodeBase64 (t : StringTensor) : Option StringTensor :=
  (t.values.mapM decodeBase64One).map (fun vs => ⟨t.shape, vs⟩)

/-- A valid Unicode string: every element is a Unicode scalar value
    (below 0x110000 and not a surrogate). -/
def ValidStr (s : List Nat) : Prop :=
  ∀ cp ∈ s, cp < 1114112 ∧ ¬(55296 ≤ cp ∧ cp ≤ 57343)

instance (s : List Nat) : Decidable (ValidStr s) :=
  List.decidableBAll _ s

/-! ### Definitions written from the spec's words (for refinement claims) -/

/-- UTF-8 bytes of one code point, written from the spec's byte-layout
    rule (`110xxxxx 10xxxxxx`, `1110xxxx 10xxxxxx 10xxxxxx`,
    `11110xxx 10xxxxxx 10xxxxxx 10xxxxxx`); the payload masks are the
    `x`-bit widths of the templates. -/
def utf8CharSpec (cp : Nat) : List Nat :=
  if cp < 2 ^ 7 then
    [cp]
  else if cp < 2 ^ 11 then
    [192 + cp / 2 ^ 6 % 2 ^ 5, 128 + cp % 2 ^ 6]
  else if cp < 2 ^ 16 then
    [224 + cp / 2 ^ 12 % 2 ^ 4, 128 + cp / 2 ^ 6 % 2 ^ 6, 128 + cp % 2 ^ 6]
  else
    [240 + cp / 2 ^ 18 % 2 ^ 3, 128 + cp / 2 ^ 12 % 2 ^ 6, 128 + cp / 2 ^ 6 % 2 ^ 6,
      128 + cp % 2 ^ 6]

/-- The RFC 4648 standard alphabet `A-Z a-z 0-9 + /` as a table of
    ASCII codes, indexed by sextet value. -/
def stdAlphabet : List Nat :=
  (List.range 26).map (fun i => 65 + i) ++ (List.range 26).map (fun i => 97 + i) ++
    (List.range 10).map (fun i => 48 + i) ++ [43, 47]

/-- Alphabet character for a sextet, by table lookup. -/
def specB64Char (n : Nat) : Nat := stdAlphabet.getD n 0

/-- RFC 4648 standard Base64 with `=` padding, using the table lookup. -/
def specBase64 : List Nat → List Nat
  | [] => []
  | [a] => [specB64Char (a / 4), specB64Char (a % 4 * 16), 61, 61]
  | [a, b] => [specB64Char (a / 4), specB64Char (a % 4 * 16 + b / 16), specB64Char (b % 16 * 4), 61]
  | a :: b :: c :: rest =>
      specB64Char (a / 4) :: specB64Char (a % 4 * 16 + b / 16) ::
        specB64Char (b % 16 * 4 + c / 64) :: specB64Char (c % 64) :: specBase64 rest

/-- Strip all trailing `=` characters (and only trailing ones). -/
def dropTrailingEq (l : List Nat) : List Nat :=
  (l.reverse.dropWhile (fun c => c == 61)).reverse

/-- `encode_one` exactly as the spec words it: UTF-8 bytes, RFC 4648
    Base64 with `=` padding, URL-safe substitution, and stripping of
    the trailing `=` characters when `pad` is false. -/
def encodeSpec (s : List Nat) (pad : Bool) : List Nat :=
  let b := specBase64 ((s.map utf8CharSpec).flatten)
  let b2 := toUrlSafe b
  if pad then b2 else dropTrailingEq b2

/-- The Node branch of the `encodeBase64_` loop:
    `Buffer.from(bVal).toString('base64')` — padded standard Base64 of
    the string's UTF-8 bytes — then the shared post-processing. -/
def encodeOneNode (s : List Nat) (pad : Bool) : List Nat :=
  let b := b64EncodeBytes ((s.map utf8CharSpec).flatten)
  let b2 := toUrlSafe b
  if pad then b2 else b2.filter (fun c => c != 61)

/-- The browser branch of the `encodeBase64_` loop: manual bit-packing
    through `utf16ToUtf8Multibyte`, then `btoa` (which can throw, hence
    `Option`), then the shared post-processing. -/
def encodeOneBrowser (s : List Nat) (pad : Bool) : Option (List Nat) :=
  (btoa ((s.map utf16ToUtf8Multibyte).flatten)).map (fun b =>
    let b2 := toUrlSafe b
    if pad then b2 else b2.filter (fun c => c != 61))

/-- Valid UTF-8 byte sequences, from the spec's description of decode
    step 3: a lead byte `110xxxxx`, `1110xxxx` or `11110xxx` must be
    followed by the correct count of `10xxxxxx` continuation bytes, and
    single bytes below 0x80 pass through. -/
def isValidUtf8 : List Nat → Bool
  | [] => true
  | b :: rest =>
    if b < 128 then isValidUtf8 rest
    else if 192 ≤ b && b ≤ 223 then
      match rest with
      | b2 :: r => isCont b2 && isValidUtf8 r
      | [] => false
    else if 224 ≤ b && b ≤ 239 then
      match rest with
      | b2 :: b3 :: r => isCont b2 && isCont b3 && isValidUtf8 r
      | _ => false
    else if 240 ≤ b && b ≤ 247 then
      match rest with
      | b2 :: b3 :: b4 :: r => isCont b2 && isCont b3 && isCont b4 && isValidUtf8 r
      | _ => false
    else false

/-! ### Decomposition helpers for the Base64 output -/

/-- The alphabet characters of the padded Base64 output (everything
    before the trailing `=` characters). -/
def b64Body : List Nat → List Nat
  | [] => []
  | [a] => [b64Char (a / 4), b64Char (a % 4 * 16)]
  | [a, b] => [b64Char (a / 4), b64Char (a % 4 * 16 + b / 16), b64Char (b % 16 * 4)]
  | a :: b :: c :: rest =>
      b64Char (a / 4) :: b64Char (a % 4 * 16 + b / 16) ::
        b64Char (b % 16 * 4 + c / 64) :: b64Char (c % 64) :: b64Body rest

/-- Number of `=` padding characters for a byte count. -/
def padLen (n : Nat) : Nat := (3 - n % 3) % 3

/-- The code points of the test string "Hello TensorFlow.js!". -/
def helloStr : List Nat :=
  [72, 101, 108, 108, 111, 32, 84, 101, 110, 115, 111, 114, 70, 108, 111, 119, 46, 106, 115, 33]

/-- The code points of "SGVsbG8gVGVuc29yRmxvdy5qcyE". -/
def helloB64 : List Nat :=
  [83, 71, 86, 115, 98, 71, 56, 103, 86, 71, 86, 117, 99, 50, 57, 121, 82, 109, 120, 118, 100,
    121, 53, 113, 99, 121, 69]

/-! ### Character-level facts -/

theorem b64Char_facts : ∀ n, n < 64 →
    43 ≤ b64Char n ∧ b64Char n ≠ 61 ∧ b64Char n ≠ 45 ∧ b64Char n ≠ 95 ∧
      ¬(isB64Whitespace (b64Char n) = true) ∧
      b64CharIndex (b64Char n) = some n ∧ specB64Char n = b64Char n := by
  decide

theorem toUrlSafe_eq_map (s : List Nat) : toUrlSafe s = s.map toUrlSafeChar := by
  simp only [toUrlSafe, List.map_map]
  apply List.map_congr_left
  intro c _
  by_cases h43 : c = 43 <;> by_cases h47 : c = 47 <;>
    simp [toUrlSafeChar, h43, h47, Function.comp]

theorem fromUrlSafe_eq_map (s : List Nat) : fromUrlSafe s = s.map fromUrlSafeChar := by
  simp only [fromUrlSafe, List.map_map]
  apply List.map_congr_left
  intro c _
  by_cases h45 : c = 45 <;> by_cases h95 : c = 95 <;>
    simp [fromUrlSafeChar, h45, h95, Function.comp]

theorem fromUrlSafeChar_toUrlSafeChar (c : Nat) (h45 : c ≠ 45) (h95 : c ≠ 95) :
    fromUrlSafeChar (toUrlSafeChar c) = c := by
  by_cases h43 : c = 43 <;> by_cases h47 : c = 47 <;>
    simp [toUrlSafeChar, fromUrlSafeChar, h43, h47, h45, h95]

theorem toUrlSafeChar_ne_eq (c : Nat) : (toUrlSafeChar c != 61) = (c != 61) := by
  by_cases h43 : c = 43 <;> by_cases h47 : c = 47 <;>
    simp [toUrlSafeChar, h43, h47]

theorem toUrlSafeChar_not_plus_slash (c : Nat) :
    toUrlSafeChar c ≠ 43 ∧ toUrlSafeChar c ≠ 47 := by
  by_cases h43 : c = 43 <;> by_cases h47 : c = 47 <;>
    simp [toUrlSafeChar, h43, h47]

/-! ### UTF-8 byte facts -/

theorem utf16ToUtf8Multibyte_lt256 (cp : Nat) :
    ∀ b ∈ utf16ToUtf8Multibyte cp, b < 256 := by
  intro b hb
  unfold utf16ToUtf8Multibyte at hb
  split_ifs at hb <;>
    simp only [List.mem_cons, List.not_mem_nil, or_false] at hb <;> omega

theorem utf16ToUtf8Multibyte_eq_spec (cp : Nat) :
    utf16ToUtf8Multibyte cp = utf8CharSpec cp := by
  unfold utf16ToUtf8Multibyte utf8CharSpec
  norm_num
  split_ifs <;> simp <;> omega

theorem utf8Flatten_lt256 (s : List Nat) :
    ∀ b ∈ (s.map utf16ToUtf8Multibyte).flatten, b < 256 := by
  intro b hb
  rw [List.mem_flatten] at hb
  obtain ⟨l, hl, hbl⟩ := hb
  rw [List.mem_map] at hl
  obtain ⟨cp, _, rfl⟩ := hl
  exact utf16ToUtf8Multibyte_lt256 cp b hbl

/-! ### Decomposition of the padded Base64 output -/

theorem b64EncodeBytes_eq_body_pad (bs : List Nat) :
    b64EncodeBytes bs = b64Body bs ++ List.replicate (padLen bs.length) 61 := by
  induction bs using b64Body.induct with
  | case1 => simp [b64EncodeBytes, b64Body, padLen]
  | case2 a => simp [b64EncodeBytes, b64Body, padLen, List.replicate]
  | case3 a b => simp [b64EncodeBytes, b64Body, padLen, List.replicate]
  | case4 a b c rest ih =>
      have hmod : padLen (a :: b :: c :: rest).length = padLen rest.length := by
        simp [padLen, List.length_cons]
        omega
      simp only [b64EncodeBytes, b64Body, ih, hmod, List.cons_append]

theorem specBase64_eq_b64EncodeBytes (bs : List Nat) (h : ∀ b ∈ bs, b < 256) :
    specBase64 bs = b64EncodeBytes bs := by
  induction bs using b64Body.induct with
  | case1 => rfl
  | case2 a =>
      have ha := h a (by simp)
      have f1 := b64Char_facts (a / 4) (by omega)
      have f2 := b64Char_facts (a % 4 * 16) (by omega)
      simp [specBase64, b64EncodeBytes, f1.2.2.2.2.2.2, f2.2.2.2.2.2.2]
  | case3 a b =>
      have ha := h a (by simp)
      have hb := h b (by simp)
      have f1 := b64Char_facts (a / 4) (by omega)
      have f2 := b64Char_facts (a % 4 * 16 + b / 16) (by omega)
      have f3 := b64Char_facts (b % 16 * 4) (by omega)
      simp [specBase64, b64EncodeBytes, f1.2.2.2.2.2.2, f2.2.2.2.2.2.2, f3.2.2.2.2.2.2]
  | case4 a b c rest ih =>
      have ha := h a (by simp)
      have hb := h b (by simp)
      have hc := h c (by simp)
      have f1 := b64Char_facts (a / 4) (by omega)
      have f2 := b64Char_facts (a % 4 * 16 + b / 16) (by omega)
      have f3 := b64Char_facts (b % 16 * 4 + c / 64) (by omega)
      have f4 := b64Char_facts (c % 64) (by omega)
      have ih' := ih (fun x hx => h x (by simp [hx]))
      simp [specBase64, b64EncodeBytes, f1.2.2.2.2.2.2, f2.2.2.2.2.2.2, f3.2.2.2.2.2.2,
        f4.2.2.2.2.2.2, ih']

theorem b64Body_mem (bs : List Nat) (h : ∀ b ∈ bs, b < 256) :
    ∀ c ∈ b64Body bs, ∃ n, n < 64 ∧ c = b64Char n := by
  induction bs using b64Body.induct with
  | case1 => simp [b64Body]
  | case2 a =>
      have ha := h a (by simp)
      intro c hc
      simp only [b64Body, List.mem_cons, List.not_mem_nil, or_false] at hc
      rcases hc with rfl | rfl
      · exact ⟨a / 4, by omega, rfl⟩
      · exact ⟨a % 4 * 16, by omega, rfl⟩
  | case3 a b =>
      have ha := h a (by simp)
      have hb := h b (by simp)
      intro c hc
      simp only [b64Body, List.mem_cons, List.not_mem_nil, or_false] at hc
      rcases hc with rfl | rfl | rfl
      · exact ⟨a / 4, by omega, rfl⟩
      · exact ⟨a % 4 * 16 + b / 16, by omega, rfl⟩
      · exact ⟨b % 16 * 4, by omega, rfl⟩
  | case4 a b c rest ih =>
      have ha := h a (by simp)
      have hb := h b (by simp)
      have hc' := h c (by simp)
      intro x hx
      simp only [b64Body, List.mem_cons] at hx
      rcases hx with rfl | rfl | rfl | rfl | hx
      · exact ⟨a / 4, by omega, rfl⟩
      · exact ⟨a % 4 * 16 + b / 16, by omega, rfl⟩
      · exact ⟨b % 16 * 4 + c / 64, by omega, rfl⟩
      · exact ⟨c % 64, by omega, rfl⟩
      · exact ih (fun y hy => h y (by simp [hy])) x hx

theorem b64Body_length (bs : List Nat) :
    (b64Body bs).length =
      4 * (bs.length / 3) + (if bs.length % 3 = 0 then 0 else bs.length % 3 + 1) := by
  induction bs using b64Body.induct with
  | case1 => simp [b64Body]
  | case2 a => simp [b64Body]
  | case3 a b => simp [b64Body]
  | case4 a b c rest ih =>
      simp only [b64Body, List.length_cons, ih]
      have h1 : (rest.length + 1 + 1 + 1) / 3 = rest.length / 3 + 1 := by omega
      have h2 : (rest.length + 1 + 1 + 1) % 3 = rest.length % 3 := by omega
      rw [h1, h2]
      omega

theorem b64Body_decode (bs : List Nat) (h : ∀ b ∈ bs, b < 256) :
    ∃ sx, (b64Body bs).mapM b64CharIndex = some sx ∧ b64DecodeSextets sx = bs := by
  induction bs using b64Body.induct with
  | case1 => exact ⟨[], rfl, rfl⟩
  | case2 a =>
      have ha := h a (by simp)
      have f1 := (b64Char_facts (a / 4) (by omega)).2.2.2.2.2.1
      have f2 := (b64Char_facts (a % 4 * 16) (by omega)).2.2.2.2.2.1
      refine ⟨[a / 4, a % 4 * 16], ?_, ?_⟩
      · show List.mapM b64CharIndex [b64Char (a / 4), b64Char (a % 4 * 16)] = _
        rw [List.mapM_cons, List.mapM_cons, List.mapM_nil, f1, f2]
        rfl
      · simp [b64DecodeSextets]
        omega
  | case3 a b =>
      have ha := h a (by simp)
      have hb := h b (by simp)
      have f1 := (b64Char_facts (a / 4) (by omega)).2.2.2.2.2.1
      have f2 := (b64Char_facts (a % 4 * 16 + b / 16) (by omega)).2.2.2.2.2.1
      have f3 := (b64Char_facts (b % 16 * 4) (by omega)).2.2.2.2.2.1
      refine ⟨[a / 4, a % 4 * 16 + b / 16, b % 16 * 4], ?_, ?_⟩
      · show List.mapM b64CharIndex
            [b64Char (a / 4), b64Char (a % 4 * 16 + b / 16), b64Char (b % 16 * 4)] = _
        rw [List.mapM_cons, List.mapM_cons, List.mapM_cons, List.mapM_nil, f1, f2, f3]
        rfl
      · simp [b64DecodeSextets]
        constructor <;> omega
  | case4 a b c rest ih =>
      have ha := h a (by simp)
      have hb := h b (by simp)
      have hc := h c (by simp)
      have f1 := (b64Char_facts (a / 4) (by omega)).2.2.2.2.2.1
      have f2 := (b64Char_facts (a % 4 * 16 + b / 16) (by omega)).2.2.2.2.2.1
      have f3 := (b64Char_facts (b % 16 * 4 + c / 64) (by omega)).2.2.2.2.2.1
      have f4 := (b64Char_facts (c % 64) (by omega)).2.2.2.2.2.1
      obtain ⟨sx, hsx, hdec⟩ := ih (fun y hy => h y (by simp [hy]))
      refine ⟨a / 4 :: (a % 4 * 16 + b / 16) :: (b % 16 * 4 + c / 64) :: c % 64 :: sx, ?_, ?_⟩
      · show List.mapM b64CharIndex
            (b64Char (a / 4) :: b64Char (a % 4 * 16 + b / 16) ::
              b64Char (b % 16 * 4 + c / 64) :: b64Char (c % 64) :: b64Body rest) = _
        rw [List.mapM_cons, List.mapM_cons, List.mapM_cons, List.mapM_cons, f1, f2, f3, f4, hsx]
        rfl
      · simp only [b64DecodeSextets, hdec]
        have e1 : a / 4 * 4 + (a % 4 * 16 + b / 16) / 16 = a := by omega
        have e2 : (a % 4 * 16 + b / 16) % 16 * 16 + (b % 16 * 4 + c / 64) / 4 = b := by omega
        have e3 : (b % 16 * 4 + c / 64) % 4 * 64 + c % 64 = c := by omega
        rw [e1, e2, e3]

theorem b64Body_no61 (bs : List Nat) (h : ∀ b ∈ bs, b < 256) :
    ∀ c ∈ b64Body bs, c ≠ 61 := by
  intro c hc
  obtain ⟨n, hn, rfl⟩ := b64Body_mem bs h c hc
  exact (b64Char_facts n hn).2.1

theorem b64Body_noWs (bs : List Nat) (h : ∀ b ∈ bs, b < 256) :
    ∀ c ∈ b64Body bs, (!isB64Whitespace c) = true := by
  intro c hc
  obtain ⟨n, hn, rfl⟩ := b64Body_mem bs h c hc
  simpa using (b64Char_facts n hn).2.2.2.2.1

theorem getLast?_ne_61 (l : List Nat) (h : ∀ c ∈ l, c ≠ 61) :
    ¬(l.getLast? = some 61) := by
  intro hl
  obtain ⟨hne, heq⟩ := List.mem_getLast?_eq_getLast hl
  exact h 61 (heq ▸ List.getLast_mem hne) rfl

/-- `atob` inverts the padded Base64 encoding of a byte list. -/
theorem atob_body_pad (bs : List Nat) (h : ∀ b ∈ bs, b < 256) :
    atob (b64Body bs ++ List.replicate (padLen bs.length) 61) = some bs := by
  have hno61 := b64Body_no61 bs h
  have hnoWs := b64Body_noWs bs h
  have hlast := getLast?_ne_61 _ hno61
  have hlen := b64Body_length bs
  obtain ⟨sx, hsx, hdec⟩ := b64Body_decode bs h
  have hfilter : (b64Body bs ++ List.replicate (padLen bs.length) 61).filter
      (fun c => !isB64Whitespace c) = b64Body bs ++ List.replicate (padLen bs.length) 61 := by
    refine List.filter_eq_self.mpr ?_
    intro c hc
    rcases List.mem_append.mp hc with hc | hc
    · exact hnoWs c hc
    · rw [List.eq_of_mem_replicate hc]
      rfl
  have hm3 : bs.length % 3 = 0 ∨ bs.length % 3 = 1 ∨ bs.length % 3 = 2 := by omega
  have hstrip : stripPad ((b64Body bs ++ List.replicate (padLen bs.length) 61).filter
      (fun c => !isB64Whitespace c)) = b64Body bs := by
    rw [hfilter]
    rcases hm3 with hm | hm | hm
    · rw [hm] at hlen
      norm_num at hlen
      have hp : padLen bs.length = 0 := by simp [padLen, hm]
      rw [hp]
      simp only [List.replicate, List.append_nil]
      unfold stripPad dropEq1
      rw [if_pos (by omega : (b64Body bs).length % 4 = 0), if_neg hlast, if_neg hlast]
    · rw [hm] at hlen
      norm_num at hlen
      have hp : padLen bs.length = 2 := by simp [padLen, hm]
      rw [hp]
      have hrep : (List.replicate 2 61 : List Nat) = [61] ++ [61] := rfl
      rw [hrep, ← List.append_assoc]
      have h4 : ((b64Body bs ++ [61]) ++ [61]).length % 4 = 0 := by
        simp only [List.length_append, List.length_cons, List.length_nil]
        omega
      unfold stripPad dropEq1
      rw [if_pos h4, if_pos (List.getLast?_concat _), List.dropLast_concat,
        if_pos (List.getLast?_concat _), List.dropLast_concat]
    · rw [hm] at hlen
      norm_num at hlen
      have hp : padLen bs.length = 1 := by simp [padLen, hm]
      rw [hp]
      have hrep : (List.replicate 1 61 : List Nat) = [61] := rfl
      rw [hrep]
      have h4 : (b64Body bs ++ [61]).length % 4 = 0 := by
        simp only [List.length_append, List.length_cons, List.length_nil]
        omega
      unfold stripPad dropEq1
      rw [if_pos h4, if_pos (List.getLast?_concat _), List.dropLast_concat, if_neg hlast]
  have h41 : ¬(b64Body bs).length % 4 = 1 := by
    rcases hm3 with hm | hm | hm <;> rw [hm] at hlen <;> norm_num at hlen <;> omega
  unfold atob
  rw [hstrip, if_neg h41, hsx]
  exact congrArg some hdec

/-- `atob` also inverts the encoding with the padding stripped. -/
theorem atob_body (bs : List Nat) (h : ∀ b ∈ bs, b < 256) :
    atob (b64Body bs) = some bs := by
  have hno61 := b64Body_no61 bs h
  have hnoWs := b64Body_noWs bs h
  have hlast := getLast?_ne_61 _ hno61
  have hlen := b64Body_length bs
  obtain ⟨sx, hsx, hdec⟩ := b64Body_decode bs h
  have hfilter : (b64Body bs).filter (fun c => !isB64Whitespace c) = b64Body bs :=
    List.filter_eq_self.mpr hnoWs
  have hm3 : bs.length % 3 = 0 ∨ bs.length % 3 = 1 ∨ bs.length % 3 = 2 := by omega
  have hstrip : stripPad ((b64Body bs).filter (fun c => !isB64Whitespace c)) = b64Body bs := by
    rw [hfilter]
    unfold stripPad dropEq1
    rcases hm3 with hm | hm | hm
    · rw [hm] at hlen
      norm_num at hlen
      rw [if_pos (by omega : (b64Body bs).length % 4 = 0), if_neg hlast, if_neg hlast]
    · rw [hm] at hlen
      norm_num at hlen
      rw [if_neg (by omega : ¬(b64Body bs).length % 4 = 0)]
    · rw [hm] at hlen
      norm_num at hlen
      rw [if_neg (by omega : ¬(b64Body bs).length % 4 = 0)]
  have h41 : ¬(b64Body bs).length % 4 = 1 := by
    rcases hm3 with hm | hm | hm <;> rw [hm] at hlen <;> norm_num at hlen <;> omega
  unfold atob
  rw [hstrip, if_neg h41, hsx]
  exact congrArg some hdec

/-! ### The multibyte-sequence replacement inverts the UTF-8 packing -/

theorem multibyteReplace_nil : multibyteReplace [] = [] := by
  unfold multibyteReplace
  rfl

theorem multibyteReplace_low (b1 : Nat) (t : List Nat) (h : b1 < 192) :
    multibyteReplace (b1 :: t) = b1 :: multibyteReplace t := by
  conv_lhs => unfold multibyteReplace
  rw [if_neg (by simp; omega), if_neg (by simp; omega), if_neg (by simp; omega)]

theorem multibyteReplace_two (b1 b2 : Nat) (t : List Nat) (h1 : 192 ≤ b1) (h2 : b1 ≤ 223)
    (hc : isCont b2 = true) :
    multibyteReplace (b1 :: b2 :: t) = (b1 % 32 * 64 + b2 % 64) :: multibyteReplace t := by
  conv_lhs => unfold multibyteReplace
  rw [if_pos (by simp [contRun, h1, h2, hc])]
  simp [utf8MultibyteToUtf16]

theorem multibyteReplace_three (b1 b2 b3 : Nat) (t : List Nat) (h1 : 224 ≤ b1) (h2 : b1 ≤ 239)
    (hc2 : isCont b2 = true) (hc3 : isCont b3 = true) :
    multibyteReplace (b1 :: b2 :: b3 :: t) =
      (b1 % 16 * 4096 + b2 % 64 * 64 + b3 % 64) :: multibyteReplace t := by
  conv_lhs => unfold multibyteReplace
  rw [if_neg (by simp; omega), if_pos (by simp [contRun, h1, h2, hc2, hc3])]
  simp [utf8MultibyteToUtf16]

theorem multibyteReplace_four (b1 b2 b3 b4 : Nat) (t : List Nat) (h1 : 240 ≤ b1) (h2 : b1 ≤ 247)
    (hc2 : isCont b2 = true) (hc3 : isCont b3 = true) (hc4 : isCont b4 = true) :
    multibyteReplace (b1 :: b2 :: b3 :: b4 :: t) =
      (b1 % 8 * 262144 + b2 % 64 * 4096 + b3 % 64 * 64 + b4 % 64) :: multibyteReplace t := by
  conv_lhs => unfold multibyteReplace
  rw [if_neg (by simp; omega), if_neg (by simp; omega),
    if_pos (by simp [contRun, h1, h2, hc2, hc3, hc4])]
  simp [utf8MultibyteToUtf16]

/-- Decoding bytes-to-text inverts the per-code-point UTF-8 packing. -/
theorem multibyteReplace_utf8 (s : List Nat) (h : ValidStr s) :
    multibyteReplace ((s.map utf16ToUtf8Multibyte).flatten) = s := by
  induction s with
  | nil => exact multibyteReplace_nil
  | cons cp rest ih =>
      have hcp := h cp (by simp)
      have hrest : ValidStr rest := fun x hx => h x (by simp [hx])
      have ih' := ih hrest
      rw [List.map_cons, List.flatten_cons]
      by_cases hlt1 : cp < 128
      · have henc : utf16ToUtf8Multibyte cp = [cp] := by
          unfold utf16ToUtf8Multibyte
          rw [if_pos hlt1]
        rw [henc, List.cons_append, List.nil_append, multibyteReplace_low cp _ (by omega), ih']
      · by_cases hlt2 : cp < 2048
        · have henc : utf16ToUtf8Multibyte cp = [192 + cp / 64, 128 + cp % 64] := by
            unfold utf16ToUtf8Multibyte
            rw [if_neg hlt1, if_pos hlt2]
          have he : (192 + cp / 64) % 32 * 64 + (128 + cp % 64) % 64 = cp := by omega
          rw [henc, List.cons_append, List.cons_append, List.nil_append,
            multibyteReplace_two _ _ _ (by omega) (by omega) (by simp [isCont]; omega), he, ih']
        · by_cases hlt3 : cp < 65536
          · have henc : utf16ToUtf8Multibyte cp =
                [224 + cp / 4096 % 16, 128 + cp / 64 % 64, 128 + cp % 64] := by
              unfold utf16ToUtf8Multibyte
              rw [if_neg hlt1, if_neg hlt2, if_pos hlt3]
            have he : (224 + cp / 4096 % 16) % 16 * 4096 + (128 + cp / 64 % 64) % 64 * 64 +
                (128 + cp % 64) % 64 = cp := by omega
            rw [henc, List.cons_append, List.cons_append, List.cons_append, List.nil_append,
              multibyteReplace_three _ _ _ _ (by omega) (by omega) (by simp [isCont]; omega)
                (by simp [isCont]; omega), he, ih']
          · have henc : utf16ToUtf8Multibyte cp =
                [240 + cp / 262144 % 8, 128 + cp / 4096 % 64, 128 + cp / 64 % 64,
                  128 + cp % 64] := by
              unfold utf16ToUtf8Multibyte
              rw [if_neg hlt1, if_neg hlt2, if_neg hlt3]
            have he : (240 + cp / 262144 % 8) % 8 * 262144 + (128 + cp / 4096 % 64) % 64 * 4096 +
                (128 + cp / 64 % 64) % 64 * 64 + (128 + cp % 64) % 64 = cp := by
              have : cp < 1114112 := hcp.1
              omega
            rw [henc, List.cons_append, List.cons_append, List.cons_append, List.cons_append,
              List.nil_append,
              multibyteReplace_four _ _ _ _ _ (by omega) (by omega) (by simp [isCont]; omega)
                (by simp [isCont]; omega) (by simp [isCont]; omega), he, ih']

/-! ### Failure propagation of the decoder -/

theorem mapM_option_none {α β : Type} (f : α → Option β) (l : List α) (a : α) (ha : a ∈ l)
    (hf : f a = none) : l.mapM f = none := by
  induction l with
  | nil => cases ha
  | cons x xs ih =>
      rw [List.mapM_cons]
      rcases List.mem_cons.mp ha with rfl | hmem
      · rw [hf]
        rfl
      · cases hx : f x
        · rfl
        · rw [ih hmem]
          rfl

theorem mem_dropEq1 (l : List Nat) (c : Nat) (hc : c ∈ l) (hne : c ≠ 61) : c ∈ dropEq1 l := by
  unfold dropEq1
  split
  case isTrue h =>
    have hl := List.dropLast_append_getLast? 61 h
    rw [← hl] at hc
    rcases List.mem_append.mp hc with h1 | h1
    · exact h1
    · simp at h1
      exact absurd h1 hne
  case isFalse h => exact hc

theorem mem_stripPad (l : List Nat) (c : Nat) (hc : c ∈ l) (hne : c ≠ 61) : c ∈ stripPad l := by
  unfold stripPad
  split
  · exact mem_dropEq1 _ _ (mem_dropEq1 _ _ hc hne) hne
  · exact hc

/-- `atob` throws when the input contains a character that is neither
    whitespace, nor `=`, nor in the standard alphabet. -/
theorem atob_none (s : List Nat) (c : Nat) (hc : c ∈ s) (hws : isB64Whitespace c = false)
    (h61 : c ≠ 61) (hidx : b64CharIndex c = none) : atob s = none := by
  have h1 : c ∈ s.filter (fun x => !isB64Whitespace x) :=
    List.mem_filter.mpr ⟨hc, by simp [hws]⟩
  have h2 : c ∈ stripPad (s.filter (fun x => !isB64Whitespace x)) := mem_stripPad _ _ h1 h61
  unfold atob
  split
  · rfl
  · rw [mapM_option_none b64CharIndex _ c h2 hidx]

/-- An element containing a character that is not whitespace and whose
    URL-safe reversal is neither `=` nor in the standard alphabet makes
    the element's decode fail. -/
theorem decodeBase64One_invalid (v : List Nat) (c : Nat) (hc : c ∈ v)
    (hws : isB64Whitespace (fromUrlSafeChar c) = false)
    (h61 : fromUrlSafeChar c ≠ 61)
    (hidx : b64CharIndex (fromUrlSafeChar c) = none) :
    decodeBase64One v = none := by
  have hc' : fromUrlSafeChar c ∈ fromUrlSafe v := by
    rw [fromUrlSafe_eq_map]
    exact List.mem_map_of_mem _ hc
  unfold decodeBase64One
  rw [atob_none _ _ hc' hws h61 hidx]
  rfl

theorem decodeBase64One_nil : decodeBase64One [] = some [] := by
  have h : atob (fromUrlSafe []) = some [] := by decide
  unfold decodeBase64One
  rw [h, Option.map_some', multibyteReplace_nil]

/-- What `mapM` of the element decoder succeeding says element-wise. -/
theorem mapM_decode_spec (l l' : List (List Nat)) (h : l.mapM decodeBase64One = some l') :
    l'.length = l.length ∧ ∀ i, decodeBase64One (l.getD i []) = some (l'.getD i []) := by
  induction l generalizing l' with
  | nil =>
      rw [List.mapM_nil] at h
      cases h
      exact ⟨rfl, fun i => by simp [List.getD]; exact decodeBase64One_nil⟩
  | cons a as ih =>
      rw [List.mapM_cons] at h
      cases hda : decodeBase64One a with
      | none => rw [hda] at h; cases h
      | some b =>
          rw [hda] at h
          cases hmas : as.mapM decodeBase64One with
          | none => rw [hmas] at h; cases h
          | some bs =>
              rw [hmas] at h
              cases h
              obtain ⟨hlen, helem⟩ := ih bs hmas
              refine ⟨by simp [hlen], fun i => ?_⟩
              cases i with
              | zero => simpa using hda
              | succ j => simpa using helem j

/-! ### Normal forms of the encoder output -/

theorem encodeBase64One_true_eq (s : List Nat) :
    encodeBase64One s true =
      (b64Body ((s.map utf16ToUtf8Multibyte).flatten)).map toUrlSafeChar ++
        List.replicate (padLen ((s.map utf16ToUtf8Multibyte).flatten).length) 61 := by
  show toUrlSafe (b64EncodeBytes ((s.map utf16ToUtf8Multibyte).flatten)) = _
  rw [toUrlSafe_eq_map, b64EncodeBytes_eq_body_pad, List.map_append, List.map_replicate]
  norm_num [toUrlSafeChar]

theorem encodeBase64One_false_eq (s : List Nat) :
    encodeBase64One s false =
      (b64Body ((s.map utf16ToUtf8Multibyte).flatten)).map toUrlSafeChar := by
  have hb256 := utf8Flatten_lt256 s
  have hno61 := b64Body_no61 _ hb256
  show (toUrlSafe (b64EncodeBytes ((s.map utf16ToUtf8Multibyte).flatten))).filter
      (fun c => c != 61) = _
  rw [toUrlSafe_eq_map, List.filter_map]
  have hp : ((fun c => c != 61) ∘ toUrlSafeChar) = fun c => c != 61 := by
    funext c
    exact toUrlSafeChar_ne_eq c
  rw [hp, b64EncodeBytes_eq_body_pad, List.filter_append, List.filter_replicate]
  norm_num
  exact congrArg (List.map toUrlSafeChar)
    (List.filter_eq_self.mpr (fun c hc => by simpa using hno61 c hc))

theorem map_from_to_body (bs : List Nat) (h : ∀ b ∈ bs, b < 256) :
    ((b64Body bs).map toUrlSafeChar).map fromUrlSafeChar = b64Body bs := by
  rw [List.map_map]
  have : ∀ c ∈ b64Body bs, (fromUrlSafeChar ∘ toUrlSafeChar) c = id c := by
    intro c hc
    obtain ⟨n, hn, rfl⟩ := b64Body_mem bs h c hc
    have hf := b64Char_facts n hn
    exact fromUrlSafeChar_toUrlSafeChar _ hf.2.2.1 hf.2.2.2.1
  rw [List.map_congr_left this, List.map_id]

/-- Per-element round trip: decoding the encoder's output recovers the
    original valid Unicode string, for either padding mode. -/
theorem decode_encode_one (s : List Nat) (pad : Bool) (h : ValidStr s) :
    decodeBase64One (encodeBase64One s pad) = some s := by
  have hb256 := utf8Flatten_lt256 s
  have hmr := multibyteReplace_utf8 s h
  cases pad
  · rw [encodeBase64One_false_eq]
    unfold decodeBase64One
    rw [fromUrlSafe_eq_map, map_from_to_body _ hb256, atob_body _ hb256, Option.map_some',
      hmr]
  · rw [encodeBase64One_true_eq]
    unfold decodeBase64One
    have h61 : fromUrlSafeChar 61 = 61 := by decide
    rw [fromUrlSafe_eq_map, List.map_append, map_from_to_body _ hb256, List.map_replicate, h61,
      atob_body_pad _ hb256, Option.map_some', hmr]

/-! ### Further helper lemmas for the claim theorems -/

theorem multibyteReplace_ascii (l : List Nat) (h : ∀ c ∈ l, c < 192) :
    multibyteReplace l = l := by
  induction l with
  | nil => exact multibyteReplace_nil
  | cons a t ih =>
      rw [multibyteReplace_low a t (h a (by simp)), ih (fun c hc => h c (by simp [hc]))]

theorem mapM_decode_encode (vs : List (List Nat)) (pad : Bool) (h : ∀ v ∈ vs, ValidStr v) :
    (vs.map (fun v => encodeBase64One v pad)).mapM decodeBase64One = some vs := by
  induction vs with
  | nil => rfl
  | cons a as ih =>
      rw [List.map_cons, List.mapM_cons, decode_encode_one a pad (h a (by simp)),
        ih (fun v hv => h v (by simp [hv]))]
      rfl

theorem getD_map_nil (l : List (List Nat)) (f : List Nat → List Nat) (hf : f [] = [])
    (i : Nat) : (l.map f).getD i [] = f (l.getD i []) := by
  rw [List.getD_eq_getElem?_getD, List.getD_eq_getElem?_getD, List.getElem?_map]
  cases l[i]? with
  | none => simp [hf]
  | some v => rfl

theorem encodeBase64One_nil (pad : Bool) : encodeBase64One [] pad = [] := by
  cases pad <;> rfl

theorem fromUrlSafeChar_id (c : Nat) (h45 : c ≠ 45) (h95 : c ≠ 95) : fromUrlSafeChar c = c := by
  unfold fromUrlSafeChar
  rw [if_neg h45, if_neg h95]

theorem toUrlSafeChar_eq61 (c : Nat) (h : toUrlSafeChar c = 61) : c = 61 := by
  by_cases h43 : c = 43 <;> by_cases h47 : c = 47 <;> simp_all [toUrlSafeChar]

theorem dropWhile_replicate_append (k : Nat) (l : List Nat) :
    (List.replicate k 61 ++ l).dropWhile (fun c => c == 61) =
      l.dropWhile (fun c => c == 61) := by
  induction k with
  | zero => rfl
  | succ n ih =>
      rw [List.replicate_succ, List.cons_append, List.dropWhile_cons,
        if_pos (show (61 == 61) = true from rfl), ih]

theorem dropWhile_eq_self_of_ne (l : List Nat) (h : ∀ c ∈ l, c ≠ 61) :
    l.dropWhile (fun c => c == 61) = l := by
  cases l with
  | nil => rfl
  | cons a t =>
      rw [List.dropWhile_cons, if_neg]
      simpa using h a (by simp)

theorem dropTrailingEq_append (l : List Nat) (k : Nat) (h : ∀ c ∈ l, c ≠ 61) :
    dropTrailingEq (l ++ List.replicate k 61) = l := by
  unfold dropTrailingEq
  rw [List.reverse_append, List.reverse_replicate, dropWhile_replicate_append,
    dropWhile_eq_self_of_ne _ (fun c hc => h c (List.mem_reverse.mp hc)), List.reverse_reverse]

/-- The element encoder agrees with the spec's step-by-step element
    encoder, on every input string and either pad value. -/
theorem encodeOne_eq_spec (s : List Nat) (pad : Bool) :
    encodeBase64One s pad = encodeSpec s pad := by
  have hb256 := utf8Flatten_lt256 s
  have hmap : s.map utf8CharSpec = s.map utf16ToUtf8Multibyte :=
    List.map_congr_left (fun cp _ => (utf16ToUtf8Multibyte_eq_spec cp).symm)
  have hspec : specBase64 ((s.map utf8CharSpec).flatten) =
      b64EncodeBytes ((s.map utf16ToUtf8Multibyte).flatten) := by
    rw [hmap]
    exact specBase64_eq_b64EncodeBytes _ hb256
  cases pad
  · have hno61 := b64Body_no61 _ hb256
    rw [encodeBase64One_false_eq]
    show _ = dropTrailingEq (toUrlSafe (specBase64 ((s.map utf8CharSpec).flatten)))
    rw [hspec, toUrlSafe_eq_map, b64EncodeBytes_eq_body_pad, List.map_append,
      List.map_replicate]
    have h61 : toUrlSafeChar 61 = 61 := by decide
    rw [h61, dropTrailingEq_append]
    intro c hc
    obtain ⟨x, hx, rfl⟩ := List.mem_map.mp hc
    exact fun hcontra => hno61 x hx (toUrlSafeChar_eq61 x hcontra)
  · show toUrlSafe (b64EncodeBytes ((s.map utf16ToUtf8Multibyte).flatten)) =
      toUrlSafe (specBase64 ((s.map utf8CharSpec).flatten))
    rw [hspec]

/-- Decoding the concrete element "gA" (Base64 of the single byte 0x80)
    silently yields the byte 0x80 although it is not valid UTF-8. -/
theorem decodeBase64One_gA : decodeBase64One [103, 65] = some [128] := by
  have hat : atob (fromUrlSafe [103, 65]) = some [128] := by decide
  have hmr : multibyteReplace [128] = [128] := by
    rw [multibyteReplace_low 128 [] (by norm_num), multibyteReplace_nil]
  unfold decodeBase64One
  rw [hat, Option.map_some', hmr]

/-- Decoding the concrete two-element tensor used as witness input. -/
theorem decodeBase64_pair :
    decodeBase64 ⟨[2], [[], [103, 65]]⟩ = some ⟨[2], [[], [128]]⟩ := by
  unfold decodeBase64
  rw [show (StringTensor.mk [2] [[], [103, 65]]).values = [[], [103, 65]] from rfl,
    List.mapM_cons, decodeBase64One_nil, List.mapM_cons, decodeBase64One_gA, List.mapM_nil]
  rfl

/-- Decoding the unpadded literal "SGVsbG8gVGVuc29yRmxvdy5qcyE". -/
theorem decodeBase64One_hello : decodeBase64One helloB64 = some helloStr := by
  have hat : atob (fromUrlSafe helloB64) = some helloStr := by decide
  have hmr : multibyteReplace helloStr = helloStr :=
    multibyteReplace_ascii _ (by decide)
  unfold decodeBase64One
  rw [hat, Option.map_some', hmr]

/-! ### Claim theorems -/

/-- C1: Round-trip: for every string tensor whose elements are valid
    Unicode strings and every value of `pad`, `decodeBase64` applied to
    `encodeBase64` returns the original tensor; in particular the
    unpadded literal "SGVsbG8gVGVuc29yRmxvdy5qcyE" decodes back to
    "Hello TensorFlow.js!". -/
theorem claim1_roundtrip :
    (∀ (t : StringTensor) (pad : Bool), (∀ v ∈ t.values, ValidStr v) →
        decodeBase64 (encodeBase64 t pad) = some t) ∧
      decodeBase64One helloB64 = some helloStr := by
  constructor
  · intro t pad h
    unfold decodeBase64 encodeBase64
    rw [show (StringTensor.mk t.shape (t.values.map (fun v => encodeBase64One v pad))).values =
        t.values.map (fun v => encodeBase64One v pad) from rfl,
      mapM_decode_encode t.values pad h]
    rfl
  · exact decodeBase64One_hello

theorem claim1_witness :
    (∀ v ∈ (StringTensor.mk [1] [helloStr]).values, ValidStr v) ∧
      decodeBase64 (encodeBase64 ⟨[1], [helloStr]⟩ false) = some ⟨[1], [helloStr]⟩ :=
  ⟨by decide, claim1_roundtrip.1 ⟨[1], [helloStr]⟩ false (by decide)⟩

/-- C2: each output element of `encodeBase64` is exactly what the spec
    prescribes: UTF-8 bytes, RFC 4648 Base64 with `=` padding, URL-safe
    substitution of `+` and the slash, and stripping of the trailing
    `=` characters when `pad` is false. -/
theorem claim2_encode_definition :
    (∀ (s : List Nat) (pad : Bool), encodeBase64One s pad = encodeSpec s pad) ∧
      ∀ (t : StringTensor) (pad : Bool) (i : Nat),
        (encodeBase64 t pad).values.getD i [] = encodeSpec (t.values.getD i []) pad := by
  refine ⟨encodeOne_eq_spec, fun t pad i => ?_⟩
  show (t.values.map (fun v => encodeBase64One v pad)).getD i [] = _
  rw [getD_map_nil _ _ (encodeBase64One_nil pad), encodeOne_eq_spec]

/-- C3 counterexample: the element "gA" is valid Base64 of the single
    byte 0x80, which is not valid UTF-8, yet neither environment branch
    of `decodeBase64` fails on it: the browser branch silently passes
    the byte through and the Node branch silently substitutes the
    replacement character U+FFFD. -/
theorem claim3_counterexample :
    isValidUtf8 [128] = false ∧
      decodeBase64 ⟨[1], [[103, 65]]⟩ = some ⟨[1], [[128]]⟩ ∧
      decodeBase64Node ⟨[1], [[103, 65]]⟩ = ⟨[1], [[65533]]⟩ := by
  refine ⟨by decide, ?_, by decide⟩
  unfold decodeBase64
  rw [show (StringTensor.mk [1] [[103, 65]]).values = [[103, 65]] from rfl, List.mapM_cons,
    decodeBase64One_gA, List.mapM_nil]
  rfl

/-- C3 amended: only the browser branch of `decodeBase64` can fail, and
    it aborts the whole operation whenever some element contains a
    character that is not whitespace and whose URL-safe reversal is
    neither `=` nor a standard-alphabet character; the Node branch is a
    total function that never raises an error and silently substitutes
    U+FFFD for malformed UTF-8, as on the "gA" element; on neither
    branch is invalid UTF-8 after byte decoding surfaced as an error. -/
theorem claim3_amended :
    (∀ (t : StringTensor) (v : List Nat) (c : Nat), v ∈ t.values → c ∈ v →
        isB64Whitespace (fromUrlSafeChar c) = false → fromUrlSafeChar c ≠ 61 →
        b64CharIndex (fromUrlSafeChar c) = none → decodeBase64 t = none) ∧
      decodeBase64OneNode [103, 65] = [65533] := by
  refine ⟨fun t v c hv hc hws h61 hidx => ?_, by decide⟩
  unfold decodeBase64
  rw [mapM_option_none decodeBase64One t.values v hv
    (decodeBase64One_invalid v c hc hws h61 hidx)]
  rfl

theorem claim3_amended_witness :
    ([33] ∈ (StringTensor.mk [1] [[33]]).values ∧ (33 : Nat) ∈ [(33 : Nat)] ∧
        isB64Whitespace (fromUrlSafeChar 33) = false ∧ fromUrlSafeChar 33 ≠ 61 ∧
        b64CharIndex (fromUrlSafeChar 33) = none) ∧
      decodeBase64 ⟨[1], [[33]]⟩ = none :=
  ⟨by decide, claim3_amended.1 ⟨[1], [[33]]⟩ [33] 33 (by decide) (by decide) (by decide)
    (by decide) (by decide)⟩

/-- C4: both operations preserve shape and element count, and the
    output element at each index is a pure function of the input
    element at that index only. -/
theorem claim4_elementwise (t : StringTensor) (pad : Bool) (t' : StringTensor)
    (hdec : decodeBase64 t = some t') :
    (encodeBase64 t pad).shape = t.shape ∧
      (encodeBase64 t pad).values.length = t.values.length ∧
      (∀ i, (encodeBase64 t pad).values.getD i [] =
        encodeBase64One (t.values.getD i []) pad) ∧
      t'.shape = t.shape ∧ t'.values.length = t.values.length ∧
      ∀ i, decodeBase64One (t.values.getD i []) = some (t'.values.getD i []) := by
  refine ⟨rfl, List.length_map _ _, fun i => getD_map_nil _ _ (encodeBase64One_nil pad) i,
    ?_, ?_, ?_⟩ <;>
  · unfold decodeBase64 at hdec
    cases hm : t.values.mapM decodeBase64One with
    | none => rw [hm] at hdec; cases hdec
    | some vs =>
        rw [hm, Option.map_some'] at hdec
        obtain rfl : StringTensor.mk t.shape vs = t' := by injection hdec
        obtain ⟨hlen, helem⟩ := mapM_decode_spec t.values vs hm
        first
          | rfl
          | exact hlen
          | exact helem

theorem claim4_witness :
    decodeBase64 ⟨[2], [[], [103, 65]]⟩ = some ⟨[2], [[], [128]]⟩ ∧
      ((encodeBase64 ⟨[2], [[], [103, 65]]⟩ true).shape = [2] ∧
        (encodeBase64 ⟨[2], [[], [103, 65]]⟩ true).values.length = 2 ∧
        (∀ i, (encodeBase64 ⟨[2], [[], [103, 65]]⟩ true).values.getD i [] =
          encodeBase64One ((StringTensor.mk [2] [[], [103, 65]]).values.getD i []) true) ∧
        (StringTensor.mk [2] [[], [128]]).shape = [2] ∧
        (StringTensor.mk [2] [[], [128]]).values.length = 2 ∧
        ∀ i, decodeBase64One ((StringTensor.mk [2] [[], [103, 65]]).values.getD i []) =
          some ((StringTensor.mk [2] [[], [128]]).values.getD i [])) :=
  ⟨decodeBase64_pair,
    claim4_elementwise ⟨[2], [[], [103, 65]]⟩ true ⟨[2], [[], [128]]⟩ decodeBase64_pair⟩

/-- C5: the two padding modes differ only in trailing `=` characters:
    the padded encoding is the unpadded one with at most two `=`
    appended. -/
theorem claim5_pad_toggle (s : List Nat) :
    ∃ k, k ≤ 2 ∧ encodeBase64One s true = encodeBase64One s false ++ List.replicate k 61 := by
  refine ⟨padLen ((s.map utf16ToUtf8Multibyte).flatten).length, by unfold padLen; omega, ?_⟩
  rw [encodeBase64One_true_eq, encodeBase64One_false_eq]

/-- C6: the encoder output never contains `+` (43) or the slash (47),
    for any input string and either pad value. -/
theorem claim6_urlsafe (s : List Nat) (pad : Bool) :
    ∀ c ∈ encodeBase64One s pad, c ≠ 43 ∧ c ≠ 47 := by
  intro c hc
  cases pad
  · rw [encodeBase64One_false_eq] at hc
    obtain ⟨x, _, rfl⟩ := List.mem_map.mp hc
    exact toUrlSafeChar_not_plus_slash x
  · rw [encodeBase64One_true_eq] at hc
    rcases List.mem_append.mp hc with hc | hc
    · obtain ⟨x, _, rfl⟩ := List.mem_map.mp hc
      exact toUrlSafeChar_not_plus_slash x
    · rw [List.eq_of_mem_replicate hc]
      norm_num

theorem claim6_witness :
    (83 : Nat) ∈ encodeBase64One helloStr false ∧ ((83 : Nat) ≠ 43 ∧ (83 : Nat) ≠ 47) :=
  ⟨by decide, claim6_urlsafe helloStr false 83 (by decide)⟩

/-- C7: the literal test vectors: "Hello TensorFlow.js!" encodes
    unpadded to "SGVsbG8gVGVuc29yRmxvdy5qcyE", the 4-byte code point
    U+1D306 encodes unpadded to "8J2Mhg", and the empty string encodes
    to the empty string. -/
theorem claim7_literals :
    encodeBase64One helloStr false = helloB64 ∧
      encodeBase64One [119558] false = [56, 74, 50, 77, 104, 103] ∧
      encodeBase64One [] false = [] ∧ encodeBase64One [] true = [] :=
  ⟨by decide, by decide, rfl, rfl⟩

/-- C8: the Node byte-oriented branch and the browser manual
    bit-packing branch of the encoder produce identical output for
    every valid Unicode string and either pad value. -/
theorem claim8_path_equivalence (s : List Nat) (pad : Bool) (_valid : ValidStr s) :
    encodeOneBrowser s pad = some (encodeOneNode s pad) := by
  have hall : ((s.map utf16ToUtf8Multibyte).flatten).all (fun c => c < 256) = true :=
    List.all_eq_true.mpr (fun x hx => by simpa using utf8Flatten_lt256 s x hx)
  have hmap : s.map utf8CharSpec = s.map utf16ToUtf8Multibyte :=
    List.map_congr_left (fun cp _ => (utf16ToUtf8Multibyte_eq_spec cp).symm)
  unfold encodeOneBrowser encodeOneNode btoa
  rw [if_pos hall, Option.map_some', hmap]

theorem claim8_witness :
    ValidStr helloStr ∧
      encodeOneBrowser helloStr false = some (encodeOneNode helloStr false) :=
  ⟨by decide, claim8_path_equivalence helloStr false (by decide)⟩

/-- C10: the URL-safe reversal maps `-` to `+` and `_` to the slash
    while leaving `+` and the slash unchanged, so the decoder accepts
    standard-alphabet Base64 as well: for every byte sequence, decoding
    its standard Base64 encoding and decoding its URL-safe encoding
    yield the same result. -/
theorem claim10_std_accepted (bs : List Nat) (h : ∀ b ∈ bs, b < 256) :
    fromUrlSafeChar 45 = 43 ∧ fromUrlSafeChar 95 = 47 ∧ fromUrlSafeChar 43 = 43 ∧
      fromUrlSafeChar 47 = 47 ∧
      decodeBase64One (b64EncodeBytes bs) = decodeBase64One (toUrlSafe (b64EncodeBytes bs)) := by
  refine ⟨by decide, by decide, by decide, by decide, ?_⟩
  have hid : fromUrlSafe (b64EncodeBytes bs) = b64EncodeBytes bs := by
    rw [fromUrlSafe_eq_map, b64EncodeBytes_eq_body_pad, List.map_append, List.map_replicate,
      (by decide : fromUrlSafeChar 61 = 61)]
    congr 1
    have hbody : ∀ c ∈ b64Body bs, fromUrlSafeChar c = id c := by
      intro c hc
      obtain ⟨n, hn, rfl⟩ := b64Body_mem bs h c hc
      have hf := b64Char_facts n hn
      exact fromUrlSafeChar_id _ hf.2.2.1 hf.2.2.2.1
    rw [List.map_congr_left hbody, List.map_id]
  have hto : fromUrlSafe (toUrlSafe (b64EncodeBytes bs)) = b64EncodeBytes bs := by
    rw [toUrlSafe_eq_map, b64EncodeBytes_eq_body_pad, List.map_append, List.map_replicate,
      (by decide : toUrlSafeChar 61 = 61), fromUrlSafe_eq_map, List.map_append,
      map_from_to_body bs h, List.map_replicate, (by decide : fromUrlSafeChar 61 = 61)]
  unfold decodeBase64One
  rw [hid, hto]

theorem claim10_witness :
    (∀ b ∈ [(72 : Nat)], b < 256) ∧
      (fromUrlSafeChar 45 = 43 ∧ fromUrlSafeChar 95 = 47 ∧ fromUrlSafeChar 43 = 43 ∧
        fromUrlSafeChar 47 = 47 ∧
        decodeBase64One (b64EncodeBytes [72]) =
          decodeBase64One (toUrlSafe (b64EncodeBytes [72]))) :=
  ⟨by decide, claim10_std_accepted [72] (by decide)⟩

end StringOps
